import Mathlib

/-!
# Verification of the war-outcome and attack-ordering core of coc.py

Shallow embedding of `src/coc/wars.py` and `src/coc/war_attack.py`.

Conventions of the embedding:
* Python `None`-able fields become `Option`.
* Python `float` destruction percentages become `ℚ` (only comparisons are
  performed on them, and comparison of IEEE doubles agrees with comparison
  of the rationals they denote).
* Python timestamps (`Timestamp.time`, a `datetime`) become seconds since
  the epoch as `Int`; subtracting two of them yields the signed elapsed
  seconds, and the `.seconds` attribute of the resulting `timedelta` is the
  elapsed value modulo 86400 (Python normalises a `timedelta` to
  `days`/`seconds`/`microseconds` with `0 ≤ seconds < 86400`, flooring,
  which for a positive divisor coincides with `Int.emod`).
* A Python expression that can raise is embedded with an outer `Option`:
  `none` means the attribute access / `min()` call raised.
* Python's `sorted` is a stable sort; it is embedded as a stable insertion
  sort (`pySorted`), which agrees with any stable sort for a total
  transitive boolean key comparison.
-/

/-- A war attack (`WarAttack._from_data` in `src/coc/war_attack.py`):
stars, destruction percentage, order, attacker tag, defender tag. -/
structure WarAttack where
  stars : Nat
  destruction : ℚ
  order : Nat
  attacker_tag : String
  defender_tag : String
deriving DecidableEq, Repr

/-- Modelled from the spec: a `ClanWarMember` as used by the core — an
identifier (tag), a side-relative map position, and the flag saying whether
the member belongs to the opponent side (`war_members.py` is not under
`src/`; the spec describes members as carrying exactly these fields for
the sorting and lookup rules). -/
structure ClanWarMember where
  tag : String
  map_position : Nat
  is_opponent : Bool
deriving DecidableEq, Repr

/-- Modelled from the spec: a `WarClan` side aggregate (`war_clans.py` is
not under `src/`) — per the spec each side "independently provides stars,
destruction, attack list and member list". -/
structure WarClan where
  stars : Nat
  destruction : ℚ
  attacks : List WarAttack
  members : List ClanWarMember
deriving DecidableEq, Repr

/-- A clan war (`ClanWar._from_data` in `src/coc/wars.py`): state string,
the two timestamps the core reads, team size, optional war tag, and the
two side aggregates. -/
structure ClanWar where
  state : Option String
  preparation_start_time : Option Int
  start_time : Option Int
  team_size : Nat
  war_tag : Option String
  clan : WarClan
  opponent : WarClan
deriving DecidableEq, Repr

/-- Python truthiness of an optional string: `None` and `""` are falsy. -/
def truthyStr : Option String → Bool
  | none => false
  | some s => s != ""

/-- The `.seconds` attribute of a Python `timedelta` built from an elapsed
number of seconds `d`: the normal form keeps `0 ≤ seconds < 86400`. -/
def timedeltaSeconds (d : Int) : Int := d % 86400

/-- The canonical friendly-war preparation windows of `ClanWar.type`
(`prep_list` in `src/coc/wars.py`, lines 115-127). -/
def prep_list : List Int :=
  [15 * 60, 30 * 60, 60 * 60, 2 * 60 * 60, 4 * 60 * 60, 6 * 60 * 60,
   8 * 60 * 60, 12 * 60 * 60, 16 * 60 * 60, 20 * 60 * 60, 24 * 60 * 60]

/-- `ClanWar.type` (`src/coc/wars.py`, lines 99-131).  Outer `Option` is
raising: accessing `self.preparation_start_time.time` raises when the
preparation timestamp is absent.  Inner `Option String` is the Python
return value (`None` when the war has no start time). -/
def ClanWar.type (w : ClanWar) : Option (Option String) :=
  if truthyStr w.war_tag then some (some "cwl")
  else
    match w.start_time with
    | none => some none
    | some st =>
      match w.preparation_start_time with
      | none => none
      | some pst =>
        if timedeltaSeconds (st - pst) ∈ prep_list then some (some "friendly")
        else some (some "random")

/-- `ClanWar.status` (`src/coc/wars.py`, lines 133-174). -/
def ClanWar.status (w : ClanWar) : String :=
  if w.state = some "inWar" then
    if w.clan.stars > w.opponent.stars then "winning"
    else if w.clan.stars = w.opponent.stars then
      if w.clan.destruction > w.opponent.destruction then "winning"
      else if w.clan.destruction = w.opponent.destruction then "tied"
      else "losing"
    else "losing"
  else if w.state = some "warEnded" then
    if w.clan.stars > w.opponent.stars then "won"
    else if w.clan.stars = w.opponent.stars then
      if w.clan.destruction > w.opponent.destruction then "won"
      else if w.clan.destruction = w.opponent.destruction then "tie"
      else "lost"
    else "lost"
  else ""

/-- `ClanWar.is_cwl` (`src/coc/wars.py`, lines 176-179): `self.type == "cwl"`;
raises whenever `type` raises. -/
def ClanWar.is_cwl (w : ClanWar) : Option Bool :=
  (ClanWar.type w).map (fun t => t == some "cwl")

/-! ## Python's stable sort

`sorted(xs, key=k)` is a stable ascending sort.  We embed it as a stable
insertion sort over a boolean "key less-or-equal" comparison: a new element
is placed after every already-sorted element whose key is `≤` its own, which
is exactly the stable placement. -/

/-- Insert `x` into `l` after every element `y` with `le y x`. -/
def insertLe {α : Type} (le : α → α → Bool) (x : α) : List α → List α
  | [] => [x]
  | y :: ys => if le y x then y :: insertLe le x ys else x :: y :: ys

/-- Stable insertion sort: the embedding of Python `sorted`. -/
def pySorted {α : Type} (le : α → α → Bool) (l : List α) : List α :=
  l.foldl (fun acc x => insertLe le x acc) []

theorem insertLe_perm {α : Type} (le : α → α → Bool) (x : α) :
    ∀ l : List α, List.Perm (insertLe le x l) (x :: l) := by
  intro l
  induction l with
  | nil => exact List.Perm.refl _
  | cons y ys ih =>
    simp only [insertLe]
    split
    · exact (ih.cons y).trans (List.Perm.swap x y ys)
    · exact List.Perm.refl _

theorem foldl_insertLe_perm {α : Type} (le : α → α → Bool) :
    ∀ l acc : List α,
      List.Perm (List.foldl (fun acc x => insertLe le x acc) acc l) (acc ++ l) := by
  intro l
  induction l with
  | nil => intro acc; simp
  | cons x xs ih =>
    intro acc
    refine ((ih (insertLe le x acc)).trans ?_)
    exact ((insertLe_perm le x acc).append_right xs).trans List.perm_middle.symm

theorem pySorted_perm {α : Type} (le : α → α → Bool) (l : List α) :
    List.Perm (pySorted le l) l := by
  simpa using foldl_insertLe_perm le l []

theorem pySorted_length {α : Type} (le : α → α → Bool) (l : List α) :
    (pySorted le l).length = l.length :=
  (pySorted_perm le l).length_eq

theorem insertLe_pairwise {α : Type} (le : α → α → Bool)
    (htot : ∀ a b, le a b = true ∨ le b a = true)
    (htrans : ∀ a b c, le a b = true → le b c = true → le a c = true)
    (x : α) : ∀ l : List α, l.Pairwise (fun a b => le a b = true) →
      (insertLe le x l).Pairwise (fun a b => le a b = true) := by
  intro l
  induction l with
  | nil => intro _; simp [insertLe]
  | cons y ys ih =>
    intro h
    rw [List.pairwise_cons] at h
    obtain ⟨hy, hys⟩ := h
    simp only [insertLe]
    split
    · rename_i hyx
      rw [List.pairwise_cons]
      refine ⟨?_, ih hys⟩
      intro z hz
      have hz' := ((insertLe_perm le x ys).mem_iff).mp hz
      rcases List.mem_cons.mp hz' with rfl | hzys
      · exact hyx
      · exact hy z hzys
    · rename_i hyx
      have hxy : le x y = true := (htot x y).resolve_right (fun h => hyx h)
      rw [List.pairwise_cons]
      refine ⟨?_, List.Pairwise.cons hy hys⟩
      intro z hz
      rcases List.mem_cons.mp hz with rfl | hzys
      · exact hxy
      · exact htrans x y z hxy (hy z hzys)

theorem pySorted_pairwise {α : Type} (le : α → α → Bool)
    (htot : ∀ a b, le a b = true ∨ le b a = true)
    (htrans : ∀ a b c, le a b = true → le b c = true → le a c = true)
    (l : List α) : (pySorted le l).Pairwise (fun a b => le a b = true) := by
  suffices h : ∀ (l acc : List α), acc.Pairwise (fun a b => le a b = true) →
      (List.foldl (fun acc x => insertLe le x acc) acc l).Pairwise
        (fun a b => le a b = true) by
    exact h l [] (List.Pairwise.nil)
  intro l
  induction l with
  | nil => intro acc h; simpa using h
  | cons x xs ih =>
    intro acc h
    exact ih _ (insertLe_pairwise le htot htrans x acc h)

/-! ## The derived list views of `ClanWar` -/

/-- The comparison used by `ClanWar.attacks`: `sorted(..., key=lambda x:
x.order, reverse=True)`, i.e. descending order. -/
def attackGe (a b : WarAttack) : Bool := b.order ≤ a.order

/-- `ClanWar.attacks` (`src/coc/wars.py`, lines 89-92): both sides' attacks
sorted by `order` descending. -/
def ClanWar.attacks (w : ClanWar) : List WarAttack :=
  pySorted attackGe (w.clan.attacks ++ w.opponent.attacks)

/-- The comparison used by `ClanWar.members`: ascending lexicographic on the
Python key `(not x.is_opponent, x.map_position)` with `False < True`. -/
def memberLe (x y : ClanWarMember) : Bool :=
  if (!x.is_opponent) = (!y.is_opponent) then x.map_position ≤ y.map_position
  else (!x.is_opponent) = false

/-- `ClanWar.members` (`src/coc/wars.py`, lines 94-97): both sides' members
sorted ascending by the key `(not x.is_opponent, x.map_position)`. -/
def ClanWar.members (w : ClanWar) : List ClanWarMember :=
  pySorted memberLe (w.clan.members ++ w.opponent.members)

/-! ## Lookups on a war -/

/-- Modelled from the spec: `WarClan.get_member` (`war_clans.py` is not
under `src/`) — the roster-lookup collaborator: "given a tag, returns a
member entity or a not-found sentinel". -/
def WarClan.get_member (c : WarClan) (tag : String) : Option ClanWarMember :=
  c.members.find? (fun m => m.tag = tag)

/-- `ClanWar.get_member` (`src/coc/wars.py`, lines 181-200): search the home
side first, then the opponent side; `None` if absent in both. -/
def ClanWar.get_member (w : ClanWar) (tag : String) : Option ClanWarMember :=
  match w.clan.get_member tag with
  | some m => some m
  | none => w.opponent.get_member tag

/-- Modelled from the spec: `ClanWarMember.defenses` (`war_members.py` is
not under `src/`) — "the defender's full list of received attacks", i.e.
the war's attacks whose defender tag is the member's tag. -/
def memberDefenses (w : ClanWar) (m : ClanWarMember) : List WarAttack :=
  (w.clan.attacks ++ w.opponent.attacks).filter (fun a => a.defender_tag = m.tag)

/-- Modelled from the spec: `ClanWarMember.attacks` (`war_members.py` is
not under `src/`) — the attacks made by this member in its war. -/
def memberAttacks (w : ClanWar) (m : ClanWarMember) : List WarAttack :=
  (w.clan.attacks ++ w.opponent.attacks).filter (fun a => a.attacker_tag = m.tag)

/-- `WarAttack.is_fresh_attack` (`src/coc/war_attack.py`, lines 85-92),
evaluated against the attack's owning war `w`.  `none` embeds a raise:
Python raises when `self.defender` is the `None` sentinel (attribute access
on `None`) or when `min()` is applied to an empty sequence of defenses. -/
def WarAttack.is_fresh_attack (w : ClanWar) (a : WarAttack) : Option Bool :=
  match w.get_member a.defender_tag with
  | none => none
  | some d =>
    let defs := memberDefenses w d
    if defs.length = 1 then some true
    else
      match (defs.map (fun x => x.order)).min? with
      | none => none
      | some mn => some (mn = a.order)

/-- Modelled from the spec: `coc.utils.get` as used by `get_attack`
(`utils.py` is not under `src/`) — "returns the first of that attacker's
attacks whose defender identifier matches; sentinel if none". -/
def utilsGetByDefenderTag (l : List WarAttack) (dtag : String) : Option WarAttack :=
  l.find? (fun a => a.defender_tag = dtag)

/-- `ClanWar.get_attack` (`src/coc/wars.py`, lines 217-232). -/
def ClanWar.get_attack (w : ClanWar) (attacker_tag defender_tag : String) :
    Option WarAttack :=
  match w.get_member attacker_tag with
  | none => none
  | some attacker =>
    let atks := memberAttacks w attacker
    if atks.length = 0 then none
    else utilsGetByDefenderTag atks defender_tag

/-! ## `ClanWarLeagueGroup` -/

/-- Modelled from the spec: a participating league clan, as produced one at
a time by the lazy clans generator (`ClanWarLeagueClan` lives in
`war_clans.py`, not under `src/`; only its construction count and identity
matter to the claims). -/
structure ClanWarLeagueClan where
  tag : String
deriving DecidableEq, Repr

/-- The fields of `ClanWarLeagueGroup` set by `_from_data`
(`src/coc/wars.py`, lines 329-339). -/
structure ClanWarLeagueGroup where
  state : Option String
  season : Option String
  number_of_rounds : Nat
  rounds : List (List String)
deriving DecidableEq, Repr

/-- `ClanWarLeagueGroup._from_data` (`src/coc/wars.py`, lines 329-339),
restricted to the round handling: `number_of_rounds = len(rounds)` and
`rounds = [n["warTags"] for n in rounds if n["warTags"][0] != "#0"]`.
`declared` is the list of `warTags` lists; the result is `none` when some
declared round is the empty list, where Python's `[0]` raises `IndexError`. -/
def leagueGroupFromData (state season : Option String)
    (declared : List (List String)) : Option ClanWarLeagueGroup :=
  if declared.all (fun r => !r.isEmpty) then
    some { state := state, season := season,
           number_of_rounds := declared.length,
           rounds := declared.filter (fun r => r.headD "" ≠ "#0") }
  else none

/-- Python list indexing `xs[i]` with negative-index semantics: `none`
embeds the `IndexError`. -/
def pyListGet {α : Type} (xs : List α) (i : Int) : Option α :=
  let j : Int := if i < 0 then i + xs.length else i
  if 0 ≤ j then xs[j.toNat]? else none

/-- The round resolution of `ClanWarLeagueGroup.get_wars`
(`src/coc/wars.py`, lines 353-390): when only one round is visible and
`abs(round_index) > 1`, the index is forced to `-1`; then the round's tag
list is read with Python indexing.  The returned tag list is what the
external `LeagueWarIterator` collaborator consumes; `none` embeds the
`IndexError`. -/
def ClanWarLeagueGroup.getWarsRoundTags (g : ClanWarLeagueGroup)
    (round_index : Int) : Option (List String) :=
  let idx : Int :=
    if g.rounds.length = 1 ∧ 1 < round_index.natAbs then -1 else round_index
  pyListGet g.rounds idx

/-- The mutable part of a `ClanWarLeagueGroup` relevant to the `clans`
property: the not-yet-consumed suffix of the clans generator
(`self.__iter_clans`; consuming an element constructs one
`ClanWarLeagueClan`) and the cache field (`self._clans`, initialised to
`[]` by `__init__`). -/
structure LeagueGroupClansState where
  iterRemaining : List ClanWarLeagueClan
  cached : List ClanWarLeagueClan
deriving DecidableEq, Repr

/-- One access of the `ClanWarLeagueGroup.clans` property
(`src/coc/wars.py`, lines 343-351): returns the value, the state after the
access, and the number of `ClanWarLeagueClan` constructions performed
(elements drawn from the generator).  `if clans:` is list truthiness:
non-empty. -/
def clansAccess (s : LeagueGroupClansState) :
    List ClanWarLeagueClan × LeagueGroupClansState × Nat :=
  if s.cached ≠ [] then (s.cached, s, 0)
  else
    let built := s.iterRemaining
    (built, ⟨[], built⟩, built.length)

/-! ## Example inputs used by witnesses and counterexamples -/

/-- In-war war, home 3 stars / 50% vs opponent 2 stars / 49%. -/
def exWarC1 : ClanWar :=
  ⟨some "inWar", none, none, 5, none, ⟨3, 50, [], []⟩, ⟨2, 49, [], []⟩⟩

/-- Normal war whose preparation lasted exactly 24 hours: preparation start
at epoch second 0, battle start at epoch second 86400, no war tag. -/
def exWar24h : ClanWar :=
  ⟨some "preparation", some 0, some 86400, 5, none, ⟨0, 0, [], []⟩, ⟨0, 0, [], []⟩⟩

/-- War carrying the empty string as its war tag. -/
def exWarEmptyTag : ClanWar :=
  ⟨some "inWar", some 0, some 3600, 5, some "", ⟨0, 0, [], []⟩, ⟨0, 0, [], []⟩⟩

/-! ## C1 -/

/-- C1: `ClanWar.status` returns exactly one of winning/losing/tied when the
state is `"inWar"`, one of won/lost/tie when the state is `"warEnded"`, and
`""` for every other state, where in both branches the label is the 2-level
lexicographic comparison (stars, then destruction) from the home side's
perspective: strictly more home stars wins; on equal stars strictly more
home destruction wins; on equal stars and destruction it is a tie; every
remaining case loses. -/
theorem C1_status_characterization (w : ClanWar) :
    (w.state = some "inWar" →
      w.status =
        (if w.clan.stars > w.opponent.stars then "winning"
         else if w.clan.stars = w.opponent.stars ∧
             w.clan.destruction > w.opponent.destruction then "winning"
         else if w.clan.stars = w.opponent.stars ∧
             w.clan.destruction = w.opponent.destruction then "tied"
         else "losing"))
    ∧ (w.state = some "warEnded" →
      w.status =
        (if w.clan.stars > w.opponent.stars then "won"
         else if w.clan.stars = w.opponent.stars ∧
             w.clan.destruction > w.opponent.destruction then "won"
         else if w.clan.stars = w.opponent.stars ∧
             w.clan.destruction = w.opponent.destruction then "tie"
         else "lost"))
    ∧ (w.state ≠ some "inWar" → w.state ≠ some "warEnded" → w.status = "") := by
  refine ⟨fun h => ?_, fun h => ?_, fun h1 h2 => ?_⟩
  · simp only [ClanWar.status, h, reduceCtorEq, if_true, if_pos rfl]
    split_ifs <;> simp_all
  · have h' : w.state ≠ some "inWar" := by simp [h]
    simp only [ClanWar.status, h, if_neg h', if_pos rfl]
    split_ifs <;> simp_all
  · simp only [ClanWar.status, if_neg h1, if_neg h2]

/-- Witness for C1 at a concrete in-war war (home 3 stars vs 2). -/
theorem C1_status_characterization_witness : exWarC1.status = "winning" :=
  ((C1_status_characterization exWarC1).1 rfl).trans (by decide)

/-! ## C3 -/

/-- C3: evaluation at the failing input.  For a war with no war tag whose
preparation lasted exactly 24 hours (86400 s elapsed between preparation
start and battle start), `ClanWar.type` returns `"random"`, although 86400 s
is one of the canonical preparation windows the claim (and the function's
own docstring and `prep_list` entry `24 * 60 * 60`) designates as
`"friendly"`: the code tests `(start - prep).seconds`, which is the elapsed
time modulo 86400 and hence 0 here. -/
theorem C3_type_24h_prep_returns_random :
    ClanWar.type exWar24h = some (some "random") ∧ (86400 : Int) ∈ prep_list := by
  decide

/-! ## C10 -/

/-- C10: a war whose war tag is the empty string is not classified `"cwl"`
(tag presence is tested by truthiness), so `is_cwl` is `false` for it; and
`is_cwl` is `true` exactly when the war tag is a truthy (present and
non-empty) string.  The hypothesis is the spec's well-formedness
precondition on snapshots: a battle start time is only present together
with a preparation start time. -/
theorem C10_empty_tag_not_cwl (w : ClanWar)
    (hwf : w.start_time.isSome → w.preparation_start_time.isSome) :
    (w.war_tag = some "" →
      ClanWar.type w ≠ some (some "cwl") ∧ w.is_cwl = some false)
    ∧ (w.is_cwl = some true ↔ truthyStr w.war_tag = true) := by
  constructor
  · intro htag
    have hfalsy : truthyStr w.war_tag = false := by simp [htag, truthyStr]
    simp only [ClanWar.type, ClanWar.is_cwl, hfalsy, if_false, Bool.false_eq_true]
    cases hst : w.start_time with
    | none => simp
    | some st =>
      have hprep : w.preparation_start_time.isSome := hwf (by simp [hst])
      cases hpst : w.preparation_start_time with
      | none => simp [hpst] at hprep
      | some pst =>
        by_cases hp : timedeltaSeconds (st - pst) ∈ prep_list <;> simp [hp]
  · constructor
    · intro h
      by_contra hfalsy
      have hfalsy' : truthyStr w.war_tag = false := by
        cases hb : truthyStr w.war_tag
        · rfl
        · exact absurd hb hfalsy
      simp only [ClanWar.is_cwl, ClanWar.type, hfalsy', if_false,
        Bool.false_eq_true] at h
      cases hst : w.start_time with
      | none => simp [hst] at h
      | some st =>
        cases hpst : w.preparation_start_time with
        | none => simp [hst, hpst] at h
        | some pst =>
          rw [hst, hpst] at h
          by_cases hp : timedeltaSeconds (st - pst) ∈ prep_list <;>
            simp [hp] at h
    · intro h
      simp [ClanWar.is_cwl, ClanWar.type, h]

/-- Witness for C10 at a concrete war whose tag is the empty string. -/
theorem C10_empty_tag_not_cwl_witness :
    ClanWar.type exWarEmptyTag ≠ some (some "cwl")
    ∧ exWarEmptyTag.is_cwl = some false := by
  have h := C10_empty_tag_not_cwl exWarEmptyTag (fun _ => rfl)
  exact ⟨(h.1 rfl).1, (h.1 rfl).2⟩

/-! ## C5 -/

theorem attackGe_total (a b : WarAttack) :
    attackGe a b = true ∨ attackGe b a = true := by
  simp only [attackGe, decide_eq_true_eq]
  exact Nat.le_total b.order a.order

theorem attackGe_trans (a b c : WarAttack) :
    attackGe a b = true → attackGe b c = true → attackGe a c = true := by
  simp only [attackGe, decide_eq_true_eq]
  exact fun h1 h2 => Nat.le_trans h2 h1

/-- C5: for a war whose attack orders are unique across both sides,
`ClanWar.attacks` is sorted strictly descending by order, and its length is
the number of home-side attacks plus the number of opponent-side attacks. -/
theorem C5_attacks_sorted_descending (w : ClanWar)
    (h : (w.clan.attacks ++ w.opponent.attacks).Pairwise
      (fun a b => a.order ≠ b.order)) :
    (ClanWar.attacks w).Pairwise (fun a b => b.order < a.order)
    ∧ (ClanWar.attacks w).length =
        w.clan.attacks.length + w.opponent.attacks.length := by
  constructor
  · have hsorted := pySorted_pairwise attackGe attackGe_total attackGe_trans
      (w.clan.attacks ++ w.opponent.attacks)
    have hne : (ClanWar.attacks w).Pairwise (fun a b => a.order ≠ b.order) :=
      ((pySorted_perm attackGe (w.clan.attacks ++ w.opponent.attacks)).pairwise_iff
        (fun hxy => hxy.symm)).mpr h
    refine (hsorted.and hne).imp ?_
    intro a b hab
    have hle : b.order ≤ a.order := by
      have := hab.1
      simpa [attackGe, decide_eq_true_eq] using this
    exact lt_of_le_of_ne hle (fun heq => hab.2 heq.symm)
  · rw [ClanWar.attacks, pySorted_length, List.length_append]

/-- War used by the C5 witness: three attacks with distinct orders. -/
def exWarC5 : ClanWar :=
  ⟨some "inWar", none, none, 5, none,
   ⟨0, 0, [⟨2, 70, 1, "#H1", "#O1"⟩, ⟨3, 100, 4, "#H2", "#O2"⟩], []⟩,
   ⟨0, 0, [⟨1, 40, 2, "#O1", "#H1"⟩], []⟩⟩

/-- Witness for C5 at a concrete war. -/
theorem C5_attacks_sorted_descending_witness :
    (ClanWar.attacks exWarC5).Pairwise (fun a b => b.order < a.order)
    ∧ (ClanWar.attacks exWarC5).length =
        exWarC5.clan.attacks.length + exWarC5.opponent.attacks.length :=
  C5_attacks_sorted_descending exWarC5 (by decide)

/-! ## C2 -/

/-- War used to refute C2 as stated: one home member, one opponent member,
both at map position 1. -/
def exWarC2 : ClanWar :=
  ⟨some "inWar", none, none, 1, none,
   ⟨0, 0, [], [⟨"#H", 1, false⟩]⟩,
   ⟨0, 0, [], [⟨"#O", 1, true⟩]⟩⟩

/-- C2 counterexample: in `exWarC2` the sides' membership flags are
consistent (home member not flagged as opponent, opponent member flagged),
yet the `members` view does not place home-side members first — the sort
key `(not x.is_opponent, x.map_position)` with Python's `False < True`
places the opponent member first.  Concretely the view is `[#O, #H]`. -/
theorem C2_counterexample :
    (∀ m ∈ exWarC2.clan.members, m.is_opponent = false)
    ∧ (∀ m ∈ exWarC2.opponent.members, m.is_opponent = true)
    ∧ ¬ (ClanWar.members exWarC2).Pairwise
        (fun a b => a.is_opponent = true → b.is_opponent = true)
    ∧ (ClanWar.members exWarC2).map (fun m => m.tag) = ["#O", "#H"] := by
  decide

theorem memberLe_total (a b : ClanWarMember) :
    memberLe a b = true ∨ memberLe b a = true := by
  cases ha : a.is_opponent <;> cases hb : b.is_opponent <;>
    simp [memberLe, ha, hb]
  · exact Nat.le_total a.map_position b.map_position
  · exact Nat.le_total a.map_position b.map_position

theorem memberLe_trans (a b c : ClanWarMember) :
    memberLe a b = true → memberLe b c = true → memberLe a c = true := by
  cases ha : a.is_opponent <;> cases hb : b.is_opponent <;>
    cases hc : c.is_opponent <;> simp [memberLe, ha, hb, hc]
  · exact Nat.le_trans
  · exact Nat.le_trans

/-- C2 (amended): the `members` view lists all *opponent-side* members
before all *home-side* members (never a home member before an opponent
member), and within each side members are in ascending (non-decreasing)
order of map position; the view is a permutation of the two side rosters.
The hypothesis ties the membership flags to the sides, as the external
construction of the rosters guarantees. -/
theorem C2_members_opponent_first (w : ClanWar)
    (_hwf : (∀ m ∈ w.clan.members, m.is_opponent = false)
      ∧ (∀ m ∈ w.opponent.members, m.is_opponent = true)) :
    List.Perm (ClanWar.members w) (w.clan.members ++ w.opponent.members)
    ∧ (ClanWar.members w).Pairwise (fun a b =>
        (a.is_opponent = false → b.is_opponent = false)
        ∧ (a.is_opponent = b.is_opponent → a.map_position ≤ b.map_position)) := by
  refine ⟨pySorted_perm memberLe (w.clan.members ++ w.opponent.members), ?_⟩
  have hsorted := pySorted_pairwise memberLe memberLe_total memberLe_trans
    (w.clan.members ++ w.opponent.members)
  refine hsorted.imp ?_
  intro a b hab
  cases ha : a.is_opponent <;> cases hb : b.is_opponent <;>
    simp_all [memberLe, ha, hb]

/-- War used by the C2 witness: two members per side. -/
def exWarC2w : ClanWar :=
  ⟨some "inWar", none, none, 2, none,
   ⟨0, 0, [], [⟨"#H2", 2, false⟩, ⟨"#H1", 1, false⟩]⟩,
   ⟨0, 0, [], [⟨"#O1", 1, true⟩, ⟨"#O2", 2, true⟩]⟩⟩

/-- Witness for the amended C2 at a concrete war. -/
theorem C2_members_opponent_first_witness :
    List.Perm (ClanWar.members exWarC2w)
      (exWarC2w.clan.members ++ exWarC2w.opponent.members)
    ∧ (ClanWar.members exWarC2w).Pairwise (fun a b =>
        (a.is_opponent = false → b.is_opponent = false)
        ∧ (a.is_opponent = b.is_opponent → a.map_position ≤ b.map_position)) :=
  C2_members_opponent_first exWarC2w (by decide)

/-! ## C4 -/

theorem WarClan.get_member_tag_eq (c : WarClan) (tag : String) (m : ClanWarMember)
    (h : c.get_member tag = some m) : m.tag = tag := by
  unfold WarClan.get_member at h
  have hp := List.find?_some h
  simpa using hp

theorem ClanWar.get_member_found_tag (w : ClanWar) (tag : String) (m : ClanWarMember)
    (h : w.get_member tag = some m) : m.tag = tag := by
  unfold ClanWar.get_member at h
  cases hc : w.clan.get_member tag with
  | some m' =>
    rw [hc] at h
    cases h
    exact WarClan.get_member_tag_eq _ _ _ hc
  | none =>
    rw [hc] at h
    exact WarClan.get_member_tag_eq _ _ _ h

theorem pairwise_order_inj {l : List WarAttack}
    (h : l.Pairwise (fun x y => x.order ≠ y.order)) :
    ∀ x ∈ l, ∀ y ∈ l, x.order = y.order → x = y := by
  induction l with
  | nil => simp
  | cons z zs ih =>
    rw [List.pairwise_cons] at h
    intro x hx y hy heq
    rcases List.mem_cons.mp hx with rfl | hx' <;>
      rcases List.mem_cons.mp hy with rfl | hy'
    · rfl
    · exact absurd heq (h.1 y hy')
    · exact absurd heq.symm (h.1 x hx')
    · exact ih h.2 x hx' y hy' heq

theorem nat_min?_eq_some_iff {l : List Nat} {a : Nat} :
    l.min? = some a ↔ a ∈ l ∧ ∀ b ∈ l, a ≤ b :=
  List.min?_eq_some_iff (fun a => Nat.le_refl a) (fun a b => by omega)
    (fun a b c => Nat.le_min)

/-- C4: for an attack whose defender resolves, if the defender has exactly
one recorded defense, `is_fresh_attack` is `true`; if the defender has two
or more recorded defenses with pairwise distinct orders, `is_fresh_attack`
holds iff the attack's order is the minimum order among all attacks against
that defender, and exactly one attack among those defenses reports `true`. -/
theorem C4_is_fresh_attack (w : ClanWar) (a : WarAttack) (d : ClanWarMember)
    (hd : w.get_member a.defender_tag = some d) :
    ((memberDefenses w d).length = 1 → WarAttack.is_fresh_attack w a = some true)
    ∧ (2 ≤ (memberDefenses w d).length →
        (memberDefenses w d).Pairwise (fun x y => x.order ≠ y.order) →
        ((WarAttack.is_fresh_attack w a = some true ↔
            a.order ∈ (memberDefenses w d).map (fun x => x.order)
            ∧ ∀ o ∈ (memberDefenses w d).map (fun x => x.order), a.order ≤ o)
          ∧ ∃! x, x ∈ memberDefenses w d
              ∧ WarAttack.is_fresh_attack w x = some true)) := by
  have hdtag : d.tag = a.defender_tag := ClanWar.get_member_found_tag w _ d hd
  have key : ∀ b : WarAttack, b.defender_tag = a.defender_tag →
      WarAttack.is_fresh_attack w b =
        (if (memberDefenses w d).length = 1 then some true
         else match ((memberDefenses w d).map (fun x => x.order)).min? with
           | none => none
           | some mn => some (decide (mn = b.order))) := by
    intro b hb
    simp only [WarAttack.is_fresh_attack, hb, hd]
  constructor
  · intro h1
    rw [key a rfl, if_pos h1]
  · intro hlen hpw
    have hne1 : ¬ (memberDefenses w d).length = 1 := by omega
    have hnenil : ((memberDefenses w d).map (fun x => x.order)) ≠ [] := by
      intro hnil
      have h0 := congrArg List.length hnil
      rw [List.length_map, List.length_nil] at h0
      omega
    obtain ⟨m, hmin⟩ : ∃ m, ((memberDefenses w d).map (fun x => x.order)).min? = some m := by
      cases hm : ((memberDefenses w d).map (fun x => x.order)).min? with
      | none => exact absurd (List.min?_eq_none_iff.mp hm) hnenil
      | some m => exact ⟨m, rfl⟩
    have hmchar := nat_min?_eq_some_iff.mp hmin
    have freshChar : ∀ b : WarAttack, b.defender_tag = a.defender_tag →
        (WarAttack.is_fresh_attack w b = some true ↔ m = b.order) := by
      intro b hb
      rw [key b hb, if_neg hne1, hmin]
      simp
    constructor
    · rw [freshChar a rfl]
      constructor
      · intro heq
        exact heq ▸ hmchar
      · intro ⟨hamem, hale⟩
        exact Nat.le_antisymm (hmchar.2 _ hamem) (hale m hmchar.1)
    · obtain ⟨x, hxmem, hxord⟩ := List.mem_map.mp hmchar.1
      have hdef_tag : ∀ b ∈ memberDefenses w d, b.defender_tag = a.defender_tag := by
        intro b hb
        have := (List.mem_filter.mp hb).2
        simp only [decide_eq_true_eq] at this
        exact this.trans hdtag
      refine ⟨x, ⟨hxmem, (freshChar x (hdef_tag x hxmem)).mpr hxord.symm⟩, ?_⟩
      intro y ⟨hymem, hyfresh⟩
      have hyord : m = y.order := (freshChar y (hdef_tag y hymem)).mp hyfresh
      exact pairwise_order_inj hpw y hymem x hxmem (hyord ▸ hxord.symm ▸ rfl)

/-- War used by the C4 and C9 witnesses: home members #H1, #H2 and opponent
members #O1, #O2; #O1 received two attacks (orders 1 and 3), #H1 received
one (order 2). -/
def exWarC4 : ClanWar :=
  ⟨some "inWar", none, none, 2, none,
   ⟨0, 0, [⟨2, 70, 1, "#H1", "#O1"⟩, ⟨3, 100, 3, "#H2", "#O1"⟩],
    [⟨"#H1", 1, false⟩, ⟨"#H2", 2, false⟩]⟩,
   ⟨0, 0, [⟨1, 40, 2, "#O1", "#H1"⟩],
    [⟨"#O1", 1, true⟩, ⟨"#O2", 2, true⟩]⟩⟩

/-- Witness for C4: in `exWarC4`, the single defense of #H1 is fresh by the
fast path, and among the two defenses of #O1 exactly one attack is fresh. -/
theorem C4_is_fresh_attack_witness :
    WarAttack.is_fresh_attack exWarC4 ⟨1, 40, 2, "#O1", "#H1"⟩ = some true
    ∧ (∃! x, x ∈ memberDefenses exWarC4 ⟨"#O1", 1, true⟩
        ∧ WarAttack.is_fresh_attack exWarC4 x = some true) := by
  have h1 := C4_is_fresh_attack exWarC4 ⟨1, 40, 2, "#O1", "#H1"⟩
    ⟨"#H1", 1, false⟩ (by decide)
  have h2 := C4_is_fresh_attack exWarC4 ⟨2, 70, 1, "#H1", "#O1"⟩
    ⟨"#O1", 1, true⟩ (by decide)
  exact ⟨h1.1 (by decide), (h2.2 (by decide) (by decide)).2⟩

/-! ## C6 -/

/-- C6: a league group built from a declared rounds list (with every round
non-empty, as Python's `[0]` access presumes) keeps exactly the declared
rounds whose *first* war tag is not the placeholder `"#0"`, in declared
order, while `number_of_rounds` is the length of the unfiltered declared
list. -/
theorem C6_rounds_filtering (state season : Option String)
    (declared : List (List String)) (hne : ∀ r ∈ declared, r ≠ [])
    (g : ClanWarLeagueGroup)
    (hg : leagueGroupFromData state season declared = some g) :
    g.rounds = declared.filter (fun r => r.head? ≠ some "#0")
    ∧ g.number_of_rounds = declared.length := by
  have hall : declared.all (fun r => !r.isEmpty) = true := by
    rw [List.all_eq_true]
    intro r hr
    simpa [List.isEmpty_iff] using hne r hr
  rw [leagueGroupFromData, if_pos hall] at hg
  cases hg
  refine ⟨?_, rfl⟩
  apply List.filter_congr
  intro r hr
  cases r with
  | nil => exact absurd rfl (hne [] hr)
  | cons t ts => simp

/-- The league group built from declared rounds
`[["#0"], ["#0"], ["#ABC", "#DEF"]]`. -/
def exGroupC6 : ClanWarLeagueGroup := ⟨none, none, 3, [["#ABC", "#DEF"]]⟩

/-- Witness for C6 at the declared rounds of the spec's example. -/
theorem C6_rounds_filtering_witness :
    leagueGroupFromData none none [["#0"], ["#0"], ["#ABC", "#DEF"]]
      = some exGroupC6
    ∧ exGroupC6.rounds = [["#ABC", "#DEF"]]
    ∧ exGroupC6.rounds.length = 1
    ∧ exGroupC6.number_of_rounds = 3 := by
  have h := C6_rounds_filtering none none [["#0"], ["#0"], ["#ABC", "#DEF"]]
    (by decide) exGroupC6 (by decide)
  exact ⟨by decide, h.1.trans (by decide), by decide, h.2⟩

/-! ## C7 -/

/-- C7: for a league group with exactly one visible (filtered) round,
`get_wars` with the default round index `-2` remaps the index to `-1` and
resolves that single round; for a group with two or more visible rounds,
any round index out of range of the filtered rounds list is an index error
(the `none` outcome), with no clamping. -/
theorem C7_get_wars_round_index (g : ClanWarLeagueGroup) :
    (g.rounds.length = 1 →
      ∃ r, g.rounds = [r] ∧ g.getWarsRoundTags (-2) = some r)
    ∧ (2 ≤ g.rounds.length → ∀ i : Int,
        (i < -(g.rounds.length : Int) ∨ (g.rounds.length : Int) ≤ i) →
        g.getWarsRoundTags i = none) := by
  constructor
  · intro h1
    obtain ⟨r, hr⟩ : ∃ r, g.rounds = [r] := by
      cases hg : g.rounds with
      | nil => rw [hg] at h1; simp at h1
      | cons r rest =>
        rw [hg] at h1
        simp at h1
        exact ⟨r, by rw [h1]⟩
    refine ⟨r, hr, ?_⟩
    rw [ClanWarLeagueGroup.getWarsRoundTags, if_pos ⟨h1, by decide⟩]
    simp [pyListGet, hr]
  · intro h2 i hi
    have hcond : ¬ (g.rounds.length = 1 ∧ 1 < i.natAbs) := by
      intro hc
      omega
    rw [ClanWarLeagueGroup.getWarsRoundTags, if_neg hcond]
    simp only [pyListGet]
    rcases hi with hlow | hhigh
    · have hneg : i < 0 := by omega
      rw [if_pos hneg,
        if_neg (by omega : ¬ (0 : Int) ≤ i + (g.rounds.length : Int))]
    · rw [if_neg (by omega : ¬ i < 0), if_pos (by omega : (0 : Int) ≤ i)]
      apply List.getElem?_eq_none
      omega

/-- Group with a single visible round, used by the C7 witness. -/
def exGroupOneRound : ClanWarLeagueGroup := ⟨none, none, 7, [["#A", "#B"]]⟩

/-- Group with two visible rounds, used by the C7 witness. -/
def exGroupTwoRounds : ClanWarLeagueGroup := ⟨none, none, 7, [["#A"], ["#B"]]⟩

/-- Witness for C7: the single-round group resolves the default index; the
two-round group fails on the out-of-range index 5. -/
theorem C7_get_wars_round_index_witness :
    exGroupOneRound.getWarsRoundTags (-2) = some ["#A", "#B"]
    ∧ exGroupTwoRounds.getWarsRoundTags 5 = none := by
  constructor
  · obtain ⟨r, hr, hres⟩ := (C7_get_wars_round_index exGroupOneRound).1 rfl
    have : r = ["#A", "#B"] := by
      have := hr.symm.trans (rfl : exGroupOneRound.rounds = [["#A", "#B"]])
      exact (List.cons.injEq _ _ _ _).mp this |>.1
    rw [← this]
    exact hres
  · exact (C7_get_wars_round_index exGroupTwoRounds).2 (by decide) 5
      (Or.inr (by decide))

/-! ## C8 -/

/-- C8: the `clans` property is memoized.  Starting from the state after
construction (cache empty, the whole lazy sequence pending), the first
access returns all clans, constructing each of them once; the second access
returns the same content, performs zero clan constructions, and leaves the
state unchanged (so every later access behaves like the second). -/
theorem C8_clans_memoized (clansData : List ClanWarLeagueClan) :
    (clansAccess ⟨clansData, []⟩).1 = clansData
    ∧ (clansAccess ⟨clansData, []⟩).2.2 = clansData.length
    ∧ (clansAccess (clansAccess ⟨clansData, []⟩).2.1).1 = clansData
    ∧ (clansAccess (clansAccess ⟨clansData, []⟩).2.1).2.2 = 0
    ∧ (clansAccess (clansAccess ⟨clansData, []⟩).2.1).2.1
        = (clansAccess ⟨clansData, []⟩).2.1 := by
  cases clansData <;> simp [clansAccess]

/-! ## C9 -/

/-- C9: `get_attack` returns the `None` sentinel (total function, never an
exception) when the attacker tag resolves to no member or the resolved
attacker made zero attacks; otherwise it returns the first of the
attacker's attacks whose defender tag matches, and the sentinel when none
matches. -/
theorem C9_get_attack_lookup (w : ClanWar) (atag dtag : String) :
    (w.get_member atag = none → w.get_attack atag dtag = none)
    ∧ (∀ m, w.get_member atag = some m → memberAttacks w m = [] →
        w.get_attack atag dtag = none)
    ∧ (∀ m, w.get_member atag = some m → memberAttacks w m ≠ [] →
        w.get_attack atag dtag
          = (memberAttacks w m).find? (fun x => x.defender_tag = dtag)) := by
  refine ⟨fun h => ?_, fun m hm hnil => ?_, fun m hm hnenil => ?_⟩
  · simp [ClanWar.get_attack, h]
  · simp [ClanWar.get_attack, hm, hnil]
  · have hlen : ¬ (memberAttacks w m).length = 0 := by
      simpa [List.length_eq_zero] using hnenil
    simp [ClanWar.get_attack, hm, hlen, utilsGetByDefenderTag]

/-- Witness for C9 in `exWarC4`: an unknown attacker gives the sentinel, a
member with no attacks gives the sentinel, and #H1's attack on #O1 is
found. -/
theorem C9_get_attack_lookup_witness :
    exWarC4.get_attack "#NOBODY" "#O1" = none
    ∧ exWarC4.get_attack "#O2" "#H1" = none
    ∧ exWarC4.get_attack "#H1" "#O1" = some ⟨2, 70, 1, "#H1", "#O1"⟩ := by
  refine ⟨(C9_get_attack_lookup exWarC4 "#NOBODY" "#O1").1 (by decide),
    (C9_get_attack_lookup exWarC4 "#O2" "#H1").2.1 ⟨"#O2", 2, true⟩
      (by decide) (by decide),
    ((C9_get_attack_lookup exWarC4 "#H1" "#O1").2.2 ⟨"#H1", 1, false⟩
      (by decide) (by decide)).trans (by decide)⟩
